import Mathlib

/-!
# Verification of the dds_manager core against its specification

Shallow embedding of the security middleware (`core/middleware.py`), the
hierarchy/amount validation (`core/models.py`, `core/forms.py`) and the two
AJAX lookup endpoints (`core/views.py`), together with theorems settling the
specification's claims about them.

Strings are modelled as Lean `String`s / `List Char`; Python's `re.search`
over the middleware's fixed pattern tables is embedded as an executable
backtracking matcher over `List Char`, with each regular expression of the
source transcribed into a literal pattern value.
-/

namespace DdsManager

/-! ## Character classes

Python `re` classes used by the middleware's patterns, restricted to the
character repertoire the application handles (ASCII plus Cyrillic):
`\w`, `\s`, `\d`, and the explicit classes `['\"]` and `[=<>]`. -/

/-- Python `\w` (word character): ASCII alphanumerics, underscore, and the
Cyrillic letters used by the application's data. -/
def isWordChar (c : Char) : Bool :=
  c.isAlphanum || c = '_' ||
  ('а' ≤ c && c ≤ 'я') || ('А' ≤ c && c ≤ 'Я') || c = 'ё' || c = 'Ё'

/-- Python `\s` (whitespace). -/
def isSpaceChar (c : Char) : Bool :=
  c = ' ' || c = '\t' || c = '\n' || c = '\r' ||
  c = '\x0b' || c = '\x0c'

/-- Python `\d` (decimal digit). -/
def isDigitChar (c : Char) : Bool :=
  '0' ≤ c && c ≤ '9'

/-- Python `.` without `re.DOTALL`: any character except a newline. -/
def isDotChar (c : Char) : Bool :=
  c ≠ '\n'

/-- The character class `['\"]` of the auth-bypass patterns. -/
def isQuoteChar (c : Char) : Bool :=
  c = '\'' || c = '"'

/-- The character class `[=<>]` of the auth-bypass patterns. -/
def isCmpChar (c : Char) : Bool :=
  c = '=' || c = '<' || c = '>'

/-- Python `str.lower`, character-wise, for ASCII and Cyrillic. -/
def pyLower (c : Char) : Char :=
  if 'A' ≤ c && c ≤ 'Z' then Char.ofNat (c.toNat + 32)
  else if 'А' ≤ c && c ≤ 'Я' then Char.ofNat (c.toNat + 32)
  else if c = 'Ё' then 'ё'
  else c

/-- `value.lower()` on a whole string, as a character list. -/
def pyLowerStr (s : String) : List Char :=
  s.data.map pyLower

/-! ## A small matcher for the middleware's regular expressions

A pattern is a leading-word-boundary flag plus a list of alternatives; an
alternative is a sequence of items.  This is exactly expressive enough for
the middleware's fixed tables: every one of its regexes is an alternation
of sequences of literals, character classes, `+`/`*` repetitions of a
class, and `\b` assertions. -/

/-- One item of a regex alternative. -/
inductive RItem where
  /-- A literal string. -/
  | lit (cs : List Char)
  /-- A single character of a class. -/
  | cls (p : Char → Bool)
  /-- One or more characters of a class (`\s+`, `\w+`, `\d+`). -/
  | plus (p : Char → Bool)
  /-- Zero or more characters of a class (`\s*`, `[^>]*`, `.*`). -/
  | star (p : Char → Bool)
  /-- A `\b` assertion placed right after a word character: the rest of the
  input must be empty or start with a non-word character. -/
  | wb

/-- The remainders left after `p*` consumes a (possibly empty) prefix of
characters satisfying `p`, longest last . -/
def starConsume (p : Char → Bool) : List Char → List (List Char)
  | [] => [[]]
  | c :: s' => (c :: s') :: (if p c then starConsume p s' else [])

/-- The possible remainders after one item consumes a prefix of `s`
(repetition is nondeterministic choice — greediness is irrelevant to a
boolean search). -/
def consume : RItem → List Char → List (List Char)
  | .lit cs, s => if cs.isPrefixOf s then [s.drop cs.length] else []
  | .cls _, [] => []
  | .cls p, c :: s' => if p c then [s'] else []
  | .plus _, [] => []
  | .plus p, c :: s' => if p c then starConsume p s' else []
  | .star p, s => starConsume p s
  | .wb, [] => [[]]
  | .wb, c :: s' => if isWordChar c then [] else [c :: s']

/-- `matchItems items s` holds when `items` match some prefix of `s`. -/
def matchItems : List RItem → List Char → Bool
  | [], _ => true
  | it :: rest, s => (consume it s).any (fun s' => matchItems rest s')

/-- A compiled pattern: `lb` is a leading `\b` (every such pattern starts
with a word character, so the assertion reduces to "the previous character,
if any, is not a word character"), and `alts` are the alternatives. -/
structure Pat where
  lb : Bool
  alts : List (List RItem)

/-- Does the leading-boundary condition hold before the current position,
`prev` being the character just before it (`none` at the start)? -/
def boundaryOk (lb : Bool) (prev : Option Char) : Bool :=
  if lb then
    match prev with
    | none => true
    | some c => !isWordChar c
  else true

/-- `re.search`: try to match some alternative at each position of `s`;
`prev` is the character preceding `s` in the full subject. -/
def searchAux (alts : List (List RItem)) (lb : Bool) :
    Option Char → List Char → Bool
  | prev, [] => boundaryOk lb prev && alts.any (fun items => matchItems items [])
  | prev, c :: s' =>
      (boundaryOk lb prev && alts.any (fun items => matchItems items (c :: s'))) ||
      searchAux alts lb (some c) s'

/-- `re.search(pattern, s)` as a boolean. -/
def reSearch (p : Pat) (s : List Char) : Bool :=
  searchAux p.alts p.lb none s

/-! ## The middleware's pattern tables

Transcribed from `SQLInjectionProtectionMiddleware.__init__`.  Keyword
alternations `(k1|k2|…)` are expanded into one alternative per keyword;
each original regex is quoted in the comment above its transcription. -/

/-- Alternatives `\bKW\b` for each keyword. -/
def kwAlts (kws : List String) : List (List RItem) :=
  kws.map (fun kw => [.lit kw.data, .wb])

/-- The quote/statement-delimiter/comment-marker pattern
`r'(\'|\"|;|--|\/\*|\*\/)'`. -/
def sqlDelimPat : Pat :=
  ⟨false, [[.lit ['\'']], [.lit ['"']], [.lit [';']], [.lit ['-', '-']],
           [.lit ['/', '*']], [.lit ['*', '/']]]⟩

/-- The raw angle-bracket/entity pattern `r'(\<|\>|&lt;|&gt;)'`. -/
def sqlAnglePat : Pat :=
  ⟨false, [[.lit ['<']], [.lit ['>']], [.lit "&lt;".data], [.lit "&gt;".data]]⟩

/-- `self.sql_patterns` (10 regexes). -/
def sql_patterns : List Pat :=
  [ -- r'(\b(union|select|insert|update|delete|drop|create|alter|exec|execute)\b)'
    ⟨true, kwAlts ["union", "select", "insert", "update", "delete", "drop",
                   "create", "alter", "exec", "execute"]⟩,
    -- r'(\b(or|and)\s+\d+\s*=\s*\d+)'
    ⟨true, ["or", "and"].map (fun w =>
      [.lit w.data, .plus isSpaceChar, .plus isDigitChar, .star isSpaceChar,
       .lit ['='], .star isSpaceChar, .plus isDigitChar])⟩,
    -- r'(\b(or|and)\s+\w+\s*=\s*\w+)'
    ⟨true, ["or", "and"].map (fun w =>
      [.lit w.data, .plus isSpaceChar, .plus isWordChar, .star isSpaceChar,
       .lit ['='], .star isSpaceChar, .plus isWordChar])⟩,
    sqlDelimPat,
    -- r'(\b(script|javascript|vbscript|onload|onerror)\b)'
    ⟨true, kwAlts ["script", "javascript", "vbscript", "onload", "onerror"]⟩,
    sqlAnglePat,
    -- r'(\b(union\s+select|select\s+.*\s+from|insert\s+into|update\s+.*\s+set|delete\s+from)\b)'
    ⟨true, [[.lit "union".data, .plus isSpaceChar, .lit "select".data, .wb],
            [.lit "select".data, .plus isSpaceChar, .star isDotChar,
             .plus isSpaceChar, .lit "from".data, .wb],
            [.lit "insert".data, .plus isSpaceChar, .lit "into".data, .wb],
            [.lit "update".data, .plus isSpaceChar, .star isDotChar,
             .plus isSpaceChar, .lit "set".data, .wb],
            [.lit "delete".data, .plus isSpaceChar, .lit "from".data, .wb]]⟩,
    -- r'(\b(load_file|into\s+outfile|into\s+dumpfile)\b)'
    ⟨true, [[.lit "load_file".data, .wb],
            [.lit "into".data, .plus isSpaceChar, .lit "outfile".data, .wb],
            [.lit "into".data, .plus isSpaceChar, .lit "dumpfile".data, .wb]]⟩,
    -- r'(\b(concat|substring|ascii|char|hex|unhex)\b)'
    ⟨true, kwAlts ["concat", "substring", "ascii", "char", "hex", "unhex"]⟩,
    -- r'(\b(version|user|database|schema|table_name|column_name)\b)'
    ⟨true, kwAlts ["version", "user", "database", "schema", "table_name",
                   "column_name"]⟩ ]

/-- A paired tag pattern `\<TAG\b[^>]*\>.*?\</TAG\>`. -/
def pairedTag (tag : String) : Pat :=
  ⟨false, [[.lit ('<' :: tag.data), .wb, .star (fun c => c ≠ '>'), .lit ['>'],
            .star isDotChar, .lit ('<' :: '/' :: tag.data ++ ['>'])]]⟩

/-- A self-closing tag pattern `\<TAG\b[^>]*\>`. -/
def openTag (tag : String) : Pat :=
  ⟨false, [[.lit ('<' :: tag.data), .wb, .star (fun c => c ≠ '>'), .lit ['>']]]⟩

/-- `self.xss_patterns` (10 regexes, the `link` one duplicated as in the
source). -/
def xss_patterns : List Pat :=
  [pairedTag "script", pairedTag "iframe", pairedTag "object",
   openTag "embed", openTag "link", openTag "meta",
   pairedTag "style", openTag "link", openTag "img", pairedTag "svg"]

/-- An auth-bypass pattern `\b(K1|K2|…)\s*[C]`: keyword, optional spaces,
then one character of the class `q`. -/
def authPat (kws : List String) (q : Char → Bool) : Pat :=
  ⟨true, kws.map (fun kw => [.lit kw.data, .star isSpaceChar, .cls q])⟩

/-- `self.auth_bypass_patterns` (6 regexes). -/
def auth_bypass_patterns : List Pat :=
  [ -- r'(\b(admin|administrator|root|sa|guest|test|demo)\s*[\'\"])'
    authPat ["admin", "administrator", "root", "sa", "guest", "test", "demo"] isQuoteChar,
    -- r'(\b(password|passwd|pwd|secret|key|token)\s*[\'\"])'
    authPat ["password", "passwd", "pwd", "secret", "key", "token"] isQuoteChar,
    -- r'(\b(login|logon|signin|signon)\s*[\'\"])'
    authPat ["login", "logon", "signin", "signon"] isQuoteChar,
    -- r'(\b(auth|authentication|authorization)\s*[\'\"])'
    authPat ["auth", "authentication", "authorization"] isQuoteChar,
    -- r'(\b(admin|administrator|root|sa|guest|test|demo)\s*[=<>])'
    authPat ["admin", "administrator", "root", "sa", "guest", "test", "demo"] isCmpChar,
    -- r'(\b(password|passwd|pwd|secret|key|token)\s*[=<>])'
    authPat ["password", "passwd", "pwd", "secret", "key", "token"] isCmpChar ]

/-! ## `_check_for_attacks` -/

/-- Does some SQL-group pattern match the lowercased value? -/
def sqlThreat (value : String) : Bool :=
  sql_patterns.any (fun p => reSearch p (pyLowerStr value))

/-- Does some XSS-group pattern match the lowercased value? -/
def xssThreat (value : String) : Bool :=
  xss_patterns.any (fun p => reSearch p (pyLowerStr value))

/-- Does some auth-bypass pattern match the lowercased value? -/
def authThreat (value : String) : Bool :=
  auth_bypass_patterns.any (fun p => reSearch p (pyLowerStr value))

/-- `SQLInjectionProtectionMiddleware._check_for_attacks`: an empty value is
never a threat; otherwise the lowercased value is searched against the three
pattern groups in order (SQL, then XSS, then auth-bypass). -/
def checkForAttacks (value : String) : Bool :=
  if value = "" then false
  else sqlThreat value || xssThreat value || authThreat value

/-! ## `process_request`

A request is modelled by its path, its GET and POST parameter multi-maps
(a Django `QueryDict` converted by `dict(...)` maps each name to the list
of its values), and the request metadata consulted by the audit logger. -/

/-- The inbound request abstraction the middleware consumes. -/
structure HttpRequest where
  path : String
  getParams : List (String × List String)
  postParams : List (String × List String)
  /-- `request.META.get('REMOTE_ADDR', 'Unknown')` source. -/
  remoteAddr : Option String
  /-- `request.META.get('HTTP_USER_AGENT', 'Unknown')` source. -/
  userAgent : Option String
  /-- `request.get_full_path()`. -/
  fullPath : String
  /-- `request.is_secure()`. -/
  secure : Bool

/-- One `dict.update` step on an association list: an existing key keeps its
position but gets the new values; a new key is appended. -/
def updateAssoc (m : List (String × List String)) (kv : String × List String) :
    List (String × List String) :=
  if m.any (fun e => e.1 = kv.1) then
    m.map (fun e => if e.1 = kv.1 then (e.1, kv.2) else e)
  else m ++ [kv]

/-- `all_params = {}; all_params.update(dict(request.GET));
all_params.update(dict(request.POST))` — POST values replace GET values of
the same name. -/
def mergeParams (g p : List (String × List String)) :
    List (String × List String) :=
  p.foldl updateAssoc g

/-- An audit record as written by `_log_attack_attempt` via
`logger.warning`. -/
structure LogEntry where
  severity : String
  ip : String
  userAgent : String
  url : String
  paramName : String
  /-- `param_value[:100]`. -/
  valuePrefix : String
deriving DecidableEq

/-- `param_value[:100]`: the first hundred characters of a string. -/
def pySlice100 (v : String) : String :=
  ⟨v.data.take 100⟩

/-- `_log_attack_attempt`. -/
def logAttackAttempt (req : HttpRequest) (paramName value : String) : LogEntry :=
  { severity := "warning"
    ip := req.remoteAddr.getD "Unknown"
    userAgent := req.userAgent.getD "Unknown"
    url := req.fullPath
    paramName := paramName
    valuePrefix := pySlice100 value }

/-- The middleware's outcome: pass the request on (`allow`, Python `None`)
or short-circuit with an `HttpResponseForbidden` (status 403). -/
inductive Decision where
  | allow
  | reject (status : Nat) (body : String)
deriving DecidableEq

/-- The fixed denial message of the middleware. -/
def forbiddenBody : String := "Доступ запрещен: обнаружена попытка атаки"

/-- The first value of the list that `_check_for_attacks` flags, if any. -/
def firstThreat : List String → Option String
  | [] => none
  | v :: vs => if checkForAttacks v then some v else firstThreat vs

/-- The per-parameter inspection loop of `process_request`: parameters in
order, each value in order; the first flagged value logs one audit record
and rejects. -/
def inspectParams (req : HttpRequest) :
    List (String × List String) → Decision × List LogEntry
  | [] => (.allow, [])
  | (name, vals) :: rest =>
    match firstThreat vals with
    | some v => (.reject 403 forbiddenBody, [logAttackAttempt req name v])
    | none => inspectParams req rest

/-- The path prefixes excluded from inspection. -/
def excludedPaths : List String :=
  ["/static/", "/media/", "/favicon.ico", "/robots.txt"]

/-- Is the request path excluded from inspection
(`request.path.startswith(excluded_path)`)? -/
def isExcludedPath (path : String) : Bool :=
  excludedPaths.any (fun p => p.data.isPrefixOf path.data)

/-- `SQLInjectionProtectionMiddleware.process_request`, with the
`DISABLE_SECURITY_MIDDLEWARE` setting passed explicitly; returns the
decision together with the audit records emitted. -/
def processRequest (disableFlag : Bool) (req : HttpRequest) :
    Decision × List LogEntry :=
  if disableFlag then (.allow, [])
  else if isExcludedPath req.path then (.allow, [])
  else inspectParams req (mergeParams req.getParams req.postParams)

/-! ## `SecurityHeadersMiddleware` -/

/-- Set a response header (Django `response[k] = v`): replace the existing
entry for `k`, else append. -/
def setHeader : List (String × String) → String → String → List (String × String)
  | [], k, v => [(k, v)]
  | (k', v') :: t, k, v =>
      if k' = k then (k, v) :: t else (k', v') :: setHeader t k v

/-- Read a response header. -/
def getHeader : List (String × String) → String → Option String
  | [], _ => none
  | (k', v) :: t, k => if k' = k then some v else getHeader t k

/-- `SecurityHeadersMiddleware.process_response`, statement by statement
(including the repeated assignments of the source). -/
def processResponse (secure : Bool) (resp : List (String × String)) :
    List (String × String) :=
  let r := setHeader resp "X-Content-Type-Options" "nosniff"
  let r := setHeader r "X-Frame-Options" "DENY"
  let r := setHeader r "X-XSS-Protection" "1; mode=block"
  let r := setHeader r "X-Content-Type-Options" "nosniff"
  let r := setHeader r "X-Frame-Options" "DENY"
  let r := if secure then
      setHeader r "Strict-Transport-Security" "max-age=31536000; includeSubDomains"
    else r
  let r := setHeader r "Referrer-Policy" "strict-origin-when-cross-origin"
  setHeader r "Permissions-Policy" "geolocation=(), microphone=(), camera=()"

/-! ## Data model and hierarchy validation

Taxonomy entities carry their primary key and their parent's key; Django
model instances compare equal exactly when their primary keys do. -/

/-- A `Type` row. -/
structure TypeE where
  id : Nat
deriving DecidableEq

/-- A `Category` row: `type` is the owning `Type`'s key. -/
structure CategoryE where
  id : Nat
  typeId : Nat
deriving DecidableEq

/-- A `Subcategory` row: `category` is the owning `Category`'s key. -/
structure SubcategoryE where
  id : Nat
  categoryId : Nat
deriving DecidableEq

/-- A candidate `CashFlowRecord` as seen by the validators: the three
hierarchy references (absent when unset) and the amount in kopecks (the
`DecimalField` has two fractional digits). -/
structure RecordCandidate where
  subcategory : Option SubcategoryE
  category : Option CategoryE
  type : Option TypeE
  amountCents : Int

/-- Error message of the first hierarchy rule. -/
def msgSubcatNotInCat : String :=
  "Выбранная подкатегория не принадлежит выбранной категории."

/-- Error message of the second hierarchy rule. -/
def msgCatNotOfType : String :=
  "Выбранная категория не относится к выбранному типу."

/-- `CashFlowRecord.clean`: raises (returns `some message`) at the first
violated rule — the subcategory/category rule is checked first, the
category/type rule only if the first one passed. -/
def modelClean (r : RecordCandidate) : Option String :=
  match r.subcategory, r.category with
  | some sub, some cat =>
    if sub.categoryId ≠ cat.id then some msgSubcatNotInCat
    else match r.type with
      | some ty => if cat.typeId ≠ ty.id then some msgCatNotOfType else none
      | none => none
  | _, _ =>
    match r.category, r.type with
    | some cat, some ty =>
      if cat.typeId ≠ ty.id then some msgCatNotOfType else none
    | _, _ => none

/-- `CashFlowRecordForm.clean`: same two checks in the same order on the
form's cleaned data, again raising at the first violation. -/
def formClean (r : RecordCandidate) : Option String :=
  match r.subcategory, r.category with
  | some sub, some cat =>
    if sub.categoryId ≠ cat.id then some msgSubcatNotInCat
    else match r.category, r.type with
      | some cat', some ty =>
        if cat'.typeId ≠ ty.id then some msgCatNotOfType else none
      | _, _ => none
  | _, _ =>
    match r.category, r.type with
    | some cat, some ty =>
      if cat.typeId ≠ ty.id then some msgCatNotOfType else none
    | _, _ => none

/-- The list of errors a submitter sees from one `clean` call: the raised
`ValidationError`, if any — never more than one, since raising aborts the
method. -/
def cleanErrors (r : RecordCandidate) : List String :=
  match formClean r with
  | some m => [m]
  | none => []

/-- Modelled from the spec (§4.3, for comparison with the code): a
validator that returns the collected list of all violated hierarchy rules,
not just the first. -/
def specCollectedViolations (r : RecordCandidate) : List String :=
  (match r.subcategory, r.category with
   | some sub, some cat =>
     if sub.categoryId ≠ cat.id then [msgSubcatNotInCat] else []
   | _, _ => []) ++
  (match r.category, r.type with
   | some cat, some ty =>
     if cat.typeId ≠ ty.id then [msgCatNotOfType] else []
   | _, _ => [])

/-- The `amount` field's validation: `DecimalField(max_digits=12,
decimal_places=2, validators=[MinValueValidator(0.01)])` on an amount of
`cents` kopecks.  The validator's limit is the float literal `0.01`, whose
IEEE-754 double value is exactly `5764607523034235 / 2^59` — slightly more
than `1/100` — and `MinValueValidator` raises exactly when
`value < limit_value`, comparing the cleaned `Decimal` against that float
precisely.  `cents/100 < 5764607523034235/2^59` is cross-multiplied here by
the positive `100 · 2^59` (with `576460752303423488 = 2^59` written out);
the second conjunct is the twelve-digit bound of the field. -/
def amountValid (cents : Int) : Bool :=
  !(cents * 576460752303423488 < 5764607523034235 * 100) &&
  (cents ≤ 999999999999)

/-! ## The two AJAX lookup endpoints (`core/views.py`) -/

/-- A `Category` row as the lookup endpoint reads it. -/
structure CategoryRow where
  id : Nat
  name : String
  typeId : Nat

/-- A `Subcategory` row as the lookup endpoint reads it. -/
structure SubcategoryRow where
  id : Nat
  name : String
  categoryId : Nat

/-- Ordering by `name`, as in `order_by('name')`. -/
def catByName (a b : CategoryRow) : Prop := a.name ≤ b.name

instance : DecidableRel catByName := fun a b => by
  unfold catByName; infer_instance

instance : IsTotal CategoryRow catByName := ⟨fun a b => le_total a.name b.name⟩

instance : IsTrans CategoryRow catByName :=
  ⟨fun _ _ _ h h' => le_trans h h'⟩

/-- Ordering by `name` for subcategories. -/
def subByName (a b : SubcategoryRow) : Prop := a.name ≤ b.name

instance : DecidableRel subByName := fun a b => by
  unfold subByName; infer_instance

instance : IsTotal SubcategoryRow subByName := ⟨fun a b => le_total a.name b.name⟩

instance : IsTrans SubcategoryRow subByName :=
  ⟨fun _ _ _ h h' => le_trans h h'⟩

/-- `get_categories_by_type`: filter the categories of the given type,
order them by name, and return a 200 `JsonResponse` whose body is the list
of `{'id': …, 'name': …}` pairs.  There is no existence check on
`type_id`. -/
def getCategoriesByType (db : List CategoryRow) (typeId : Nat) :
    Nat × List (Nat × String) :=
  let cats := List.insertionSort catByName (db.filter (fun c => c.typeId = typeId))
  (200, cats.map (fun c => (c.id, c.name)))

/-- `get_subcategories_by_category`: same shape for subcategories. -/
def getSubcategoriesByCategory (db : List SubcategoryRow) (categoryId : Nat) :
    Nat × List (Nat × String) :=
  let subs := List.insertionSort subByName
    (db.filter (fun s => s.categoryId = categoryId))
  (200, subs.map (fun s => (s.id, s.name)))

/-! ## Lemmas about the matcher -/

/-- Matching a bare literal alternative on input that starts with it. -/
theorem matchItems_lit_self (cs t : List Char) :
    matchItems [RItem.lit cs] (cs ++ t) = true := by
  simp [matchItems, consume, List.isPrefixOf_iff_prefix, List.prefix_append]

/-- If some alternative matches at some position and the pattern has no
leading boundary, the search succeeds. -/
theorem searchAux_of_match (alts : List (List RItem)) (pre suf : List Char)
    (a : List RItem) (ha : a ∈ alts) (hm : matchItems a suf = true) :
    ∀ prev, searchAux alts false prev (pre ++ suf) = true := by
  induction pre with
  | nil =>
    intro prev
    have hany : alts.any (fun items => matchItems items suf) = true :=
      List.any_eq_true.mpr ⟨a, ha, hm⟩
    cases suf with
    | nil => simp [searchAux, boundaryOk, hany]
    | cons c s' => simp [searchAux, boundaryOk]; left; exact List.any_eq_true.mp hany
  | cons c pre' ih =>
    intro prev
    simp only [List.cons_append, searchAux, List.append_eq, ih (some c),
      Bool.or_true]

/-- A pattern without leading boundary that has a bare-literal alternative
fires on any input containing that literal. -/
theorem reSearch_of_infix {cs : List Char} {alts : List (List RItem)}
    (ha : [RItem.lit cs] ∈ alts) {s : List Char} (h : cs <:+: s) :
    reSearch ⟨false, alts⟩ s = true := by
  obtain ⟨pre, suf, rfl⟩ := h
  show searchAux alts false none (pre ++ cs ++ suf) = true
  rw [List.append_assoc]
  exact searchAux_of_match alts pre (cs ++ suf) _ ha (matchItems_lit_self cs suf) none

/-- If the search succeeds, some alternative matches at some position. -/
theorem searchAux_elim {alts : List (List RItem)} {lb : Bool} :
    ∀ {s : List Char} {prev : Option Char}, searchAux alts lb prev s = true →
      ∃ pre suf, s = pre ++ suf ∧ ∃ a ∈ alts, matchItems a suf = true := by
  intro s
  induction s with
  | nil =>
    intro prev h
    simp only [searchAux, Bool.and_eq_true, List.any_eq_true] at h
    exact ⟨[], [], rfl, h.2⟩
  | cons c s' ih =>
    intro prev h
    simp only [searchAux, Bool.or_eq_true, Bool.and_eq_true, List.any_eq_true] at h
    rcases h with ⟨-, a, ha, hm⟩ | h
    · exact ⟨[], c :: s', rfl, a, ha, hm⟩
    · obtain ⟨pre, suf, heq, hmatch⟩ := ih h
      exact ⟨c :: pre, suf, by rw [heq, List.cons_append], hmatch⟩

/-- Decomposition of a `p*` consumption. -/
theorem starConsume_mem {p : Char → Bool} :
    ∀ {t u : List Char}, u ∈ starConsume p t →
      ∃ mid, t = mid ++ u ∧ ∀ x ∈ mid, p x = true := by
  intro t
  induction t with
  | nil =>
    intro u hu
    simp [starConsume] at hu
    exact ⟨[], by simp [hu], by simp⟩
  | cons c t' ih =>
    intro u hu
    simp only [starConsume] at hu
    rcases List.mem_cons.mp hu with rfl | hu'
    · exact ⟨[], rfl, by simp⟩
    · by_cases hpc : p c = true
      · rw [if_pos hpc] at hu'
        obtain ⟨mid, rfl, hmid⟩ := ih hu'
        refine ⟨c :: mid, rfl, ?_⟩
        intro x hx
        rcases List.mem_cons.mp hx with rfl | hx'
        · exact hpc
        · exact hmid x hx'
      · simp [hpc] at hu'

/-- Decomposition of a `LITERAL \s* [CLASS]` alternative — the shape of
every auth-bypass alternative. -/
theorem matchItems_auth_shape {kw : List Char} {p q : Char → Bool}
    {s : List Char}
    (h : matchItems [RItem.lit kw, RItem.star p, RItem.cls q] s = true) :
    ∃ mid c rest, s = kw ++ mid ++ c :: rest ∧
      (∀ x ∈ mid, p x = true) ∧ q c = true := by
  simp only [matchItems, consume, List.any_eq_true] at h
  by_cases hpre : kw.isPrefixOf s
  · rw [if_pos hpre] at h
    obtain ⟨t', ht', hmatch⟩ := h
    obtain ⟨t, rfl⟩ := List.isPrefixOf_iff_prefix.mp hpre
    rw [List.drop_left] at ht'
    simp only [List.mem_singleton] at ht'
    subst ht'
    obtain ⟨u, hu, hcls⟩ := hmatch
    obtain ⟨mid, rfl, hmid⟩ := starConsume_mem hu
    cases u with
    | nil => simp at hcls
    | cons c rest =>
      by_cases hqc : q c = true
      · exact ⟨mid, c, rest, by simp, hmid, hqc⟩
      · simp [hqc] at hcls
  · simp [hpre] at h

/-- Soundness of an auth-bypass pattern: it fires only when some keyword of
its list occurs followed by optional whitespace and a character of its
class. -/
theorem authPat_sound {kws : List String} {q : Char → Bool} {v : List Char}
    (h : reSearch (authPat kws q) v = true) :
    ∃ kw ∈ kws, ∃ pre mid c rest,
      v = pre ++ kw.data ++ mid ++ c :: rest ∧
      (∀ x ∈ mid, isSpaceChar x = true) ∧ q c = true := by
  obtain ⟨pre, suf, rfl, a, ha, hm⟩ := searchAux_elim h
  simp only [authPat, List.mem_map] at ha
  obtain ⟨kw, hkw, rfl⟩ := ha
  obtain ⟨mid, c, rest, rfl, hmid, hq⟩ := matchItems_auth_shape hm
  exact ⟨kw, hkw, pre, mid, c, rest, by simp [List.append_assoc], hmid, hq⟩

/-- All credential keywords of the auth-bypass group. -/
def credentialKeywords : List String :=
  ["admin", "administrator", "root", "sa", "guest", "test", "demo",
   "password", "passwd", "pwd", "secret", "key", "token",
   "login", "logon", "signin", "signon",
   "auth", "authentication", "authorization"]

/-- The auth-bypass group fires only when a credential keyword occurs
followed (after optional whitespace) by a quote or a comparison
operator. -/
theorem authThreat_sound {v : String} (h : authThreat v = true) :
    ∃ kw ∈ credentialKeywords, ∃ pre mid c rest,
      pyLowerStr v = pre ++ kw.data ++ mid ++ c :: rest ∧
      (∀ x ∈ mid, isSpaceChar x = true) ∧
      (isQuoteChar c = true ∨ isCmpChar c = true) := by
  rw [authThreat, List.any_eq_true] at h
  obtain ⟨p, hp, hsearch⟩ := h
  have sub : ∀ kws : List String, (∀ kw ∈ kws, kw ∈ credentialKeywords) →
      ∀ q : Char → Bool, (∀ c, q c = true → isQuoteChar c = true ∨ isCmpChar c = true) →
      p = authPat kws q →
      ∃ kw ∈ credentialKeywords, ∃ pre mid c rest,
        pyLowerStr v = pre ++ kw.data ++ mid ++ c :: rest ∧
        (∀ x ∈ mid, isSpaceChar x = true) ∧
        (isQuoteChar c = true ∨ isCmpChar c = true) := by
    rintro kws hkws q hq rfl
    obtain ⟨kw, hkw, pre, mid, c, rest, heq, hmid, hc⟩ := authPat_sound hsearch
    exact ⟨kw, hkws kw hkw, pre, mid, c, rest, heq, hmid, hq c hc⟩
  simp only [auth_bypass_patterns, List.mem_cons, List.not_mem_nil, or_false] at hp
  rcases hp with rfl | rfl | rfl | rfl | rfl | rfl
  · exact sub _ (by intro kw hkw; simp [credentialKeywords]; simp at hkw; tauto)
      _ (fun c hc => Or.inl hc) rfl
  · exact sub _ (by intro kw hkw; simp [credentialKeywords]; simp at hkw; tauto)
      _ (fun c hc => Or.inl hc) rfl
  · exact sub _ (by intro kw hkw; simp [credentialKeywords]; simp at hkw; tauto)
      _ (fun c hc => Or.inl hc) rfl
  · exact sub _ (by intro kw hkw; simp [credentialKeywords]; simp at hkw; tauto)
      _ (fun c hc => Or.inl hc) rfl
  · exact sub _ (by intro kw hkw; simp [credentialKeywords]; simp at hkw; tauto)
      _ (fun c hc => Or.inr hc) rfl
  · exact sub _ (by intro kw hkw; simp [credentialKeywords]; simp at hkw; tauto)
      _ (fun c hc => Or.inr hc) rfl

/-! ## Lemmas about the request filter -/

/-- `firstThreat` finds nothing exactly when every value is clean. -/
theorem firstThreat_eq_none {vs : List String} :
    firstThreat vs = none ↔ ∀ v ∈ vs, checkForAttacks v = false := by
  induction vs with
  | nil => simp [firstThreat]
  | cons v vs ih =>
    by_cases hv : checkForAttacks v
    · simp [firstThreat, hv]
    · simp [firstThreat, hv, ih, Bool.eq_false_iff.mpr hv]

/-- If `firstThreat` returns a value, it is a flagged member of the
list. -/
theorem firstThreat_eq_some {vs : List String} {v : String}
    (h : firstThreat vs = some v) : v ∈ vs ∧ checkForAttacks v = true := by
  induction vs with
  | nil => simp [firstThreat] at h
  | cons w vs ih =>
    by_cases hw : checkForAttacks w
    · simp [firstThreat, hw] at h
      subst h
      exact ⟨List.mem_cons_self _ _, hw⟩
    · simp [firstThreat, hw] at h
      obtain ⟨hmem, hchk⟩ := ih h
      exact ⟨List.mem_cons_of_mem _ hmem, hchk⟩

/-- The inspection loop allows exactly when every value of every parameter
is clean. -/
theorem inspectParams_allow_iff (req : HttpRequest)
    (ps : List (String × List String)) :
    (inspectParams req ps).1 = Decision.allow ↔
      ∀ nv ∈ ps, ∀ v ∈ nv.2, checkForAttacks v = false := by
  induction ps with
  | nil => simp [inspectParams]
  | cons nv ps ih =>
    obtain ⟨name, vals⟩ := nv
    cases hft : firstThreat vals with
    | some v =>
      simp only [inspectParams, hft]
      obtain ⟨hmem, hchk⟩ := firstThreat_eq_some hft
      constructor
      · intro h; exact absurd h (by simp)
      · intro h
        have := h (name, vals) (List.mem_cons_self _ _) v hmem
        rw [hchk] at this
        exact absurd this (by simp)
    | none =>
      simp only [inspectParams, hft, ih]
      constructor
      · intro h nv' hnv'
        rcases List.mem_cons.mp hnv' with rfl | hnv'
        · exact firstThreat_eq_none.mp hft
        · exact h nv' hnv'
      · intro h nv' hnv'
        exact h nv' (List.mem_cons_of_mem _ hnv')

/-- Characterization of the inspection loop's outcome: either it allows
with no audit record, or it rejects with status 403, the fixed body, and
exactly one audit record for a flagged parameter value. -/
theorem inspectParams_cases (req : HttpRequest)
    (ps : List (String × List String)) :
    inspectParams req ps = (Decision.allow, []) ∨
      ∃ n vs v, (n, vs) ∈ ps ∧ v ∈ vs ∧ checkForAttacks v = true ∧
        inspectParams req ps =
          (Decision.reject 403 forbiddenBody, [logAttackAttempt req n v]) := by
  induction ps with
  | nil => exact Or.inl rfl
  | cons nv ps ih =>
    obtain ⟨name, vals⟩ := nv
    cases hft : firstThreat vals with
    | some v =>
      obtain ⟨hmem, hchk⟩ := firstThreat_eq_some hft
      exact Or.inr ⟨name, vals, v, List.mem_cons_self _ _, hmem, hchk,
        by simp [inspectParams, hft]⟩
    | none =>
      rcases ih with h | ⟨n, vs, v, hmem, hv, hchk, h⟩
      · exact Or.inl (by simp [inspectParams, hft, h])
      · exact Or.inr ⟨n, vs, v, List.mem_cons_of_mem _ hmem, hv, hchk,
          by simp [inspectParams, hft, h]⟩

/-! ## Lemmas about response headers -/

/-- Reading back the header just set. -/
theorem getHeader_setHeader (hs : List (String × String)) (k v k' : String) :
    getHeader (setHeader hs k v) k' =
      if k' = k then some v else getHeader hs k' := by
  induction hs with
  | nil =>
    simp only [setHeader, getHeader]
    by_cases h : k' = k
    · rw [if_pos h.symm, if_pos h]
    · rw [if_neg (fun hc => h (hc.symm)), if_neg h]
  | cons e t ih =>
    obtain ⟨ek, ev⟩ := e
    by_cases hek : ek = k
    · subst hek
      simp only [setHeader, if_pos rfl, getHeader]
      by_cases h : k' = ek
      · rw [if_pos h.symm, if_pos h]
      · rw [if_neg (fun hc => h (hc.symm)), if_neg h,
          if_neg (fun hc => h (hc.symm))]
    · simp only [setHeader, if_neg hek, getHeader]
      rw [ih]
      by_cases h : ek = k'
      · subst h
        rw [if_pos rfl, if_neg hek, if_pos rfl]
      · rw [if_neg h]
        by_cases h2 : k' = k
        · rw [if_pos h2, if_pos h2]
        · rw [if_neg h2, if_neg h2, if_neg h]

/-! ## Further helpers for the claims -/

/-- A non-empty value matching some SQL-group pattern is flagged. -/
theorem checkForAttacks_of_sql {s : String} {p : Pat} (hp : p ∈ sql_patterns)
    (hne : s ≠ "") (h : reSearch p (pyLowerStr s) = true) :
    checkForAttacks s = true := by
  have hsql : sqlThreat s = true := List.any_eq_true.mpr ⟨p, hp, h⟩
  rw [checkForAttacks, if_neg hne, hsql]
  simp

/-- The delimiter substrings whose mere presence triggers the SQL group's
two delimiter patterns. -/
def delimiterSubstrings : List (List Char) :=
  [['\''], ['"'], [';'], ['-', '-'], ['/', '*'], ['*', '/'],
   ['<'], ['>'], ['&', 'l', 't', ';'], ['&', 'g', 't', ';']]

/-- The delimiter substrings are fixed points of lowercasing. -/
theorem delim_lower_fixed :
    ∀ sub ∈ delimiterSubstrings, sub.map pyLower = sub := by decide

/-- `sqlDelimPat` is in the SQL group. -/
theorem sqlDelimPat_mem : sqlDelimPat ∈ sql_patterns :=
  List.mem_cons_of_mem _ (List.mem_cons_of_mem _ (List.mem_cons_of_mem _
    (List.mem_cons_self _ _)))

/-- `sqlAnglePat` is in the SQL group. -/
theorem sqlAnglePat_mem : sqlAnglePat ∈ sql_patterns :=
  List.mem_cons_of_mem _ (List.mem_cons_of_mem _ (List.mem_cons_of_mem _
    (List.mem_cons_of_mem _ (List.mem_cons_of_mem _ (List.mem_cons_self _ _)))))

/-- A string with a delimiter substring anywhere in it is non-empty and
flagged by `_check_for_attacks`. -/
theorem checkForAttacks_of_delim {s : String} {sub : List Char}
    (hsub : sub ∈ delimiterSubstrings) (hinf : sub <:+: s.data) :
    checkForAttacks s = true := by
  have hmap : sub.map pyLower <:+: pyLowerStr s := hinf.map pyLower
  rw [delim_lower_fixed sub hsub] at hmap
  have hne : s ≠ "" := by
    intro hs
    subst hs
    have hinf' : sub <:+: ([] : List Char) := hinf
    have hnil : sub = [] := by simpa using hinf'
    subst hnil
    exact absurd hsub (by decide)
  have main : ∀ p ∈ sql_patterns, [RItem.lit sub] ∈ p.alts → p.lb = false →
      checkForAttacks s = true := by
    intro p hp halt hlb
    refine checkForAttacks_of_sql hp hne ?_
    have hrs : reSearch ⟨false, p.alts⟩ (pyLowerStr s) = true :=
      reSearch_of_infix halt hmap
    cases p
    simp only at hlb
    subst hlb
    exact hrs
  fin_cases hsub
  · exact main sqlDelimPat sqlDelimPat_mem (by simp [sqlDelimPat]) rfl
  · exact main sqlDelimPat sqlDelimPat_mem (by simp [sqlDelimPat]) rfl
  · exact main sqlDelimPat sqlDelimPat_mem (by simp [sqlDelimPat]) rfl
  · exact main sqlDelimPat sqlDelimPat_mem (by simp [sqlDelimPat]) rfl
  · exact main sqlDelimPat sqlDelimPat_mem (by simp [sqlDelimPat]) rfl
  · exact main sqlDelimPat sqlDelimPat_mem (by simp [sqlDelimPat]) rfl
  · exact main sqlAnglePat sqlAnglePat_mem (by simp [sqlAnglePat]) rfl
  · exact main sqlAnglePat sqlAnglePat_mem (by simp [sqlAnglePat]) rfl
  · exact main sqlAnglePat sqlAnglePat_mem (by simp [sqlAnglePat]) rfl
  · exact main sqlAnglePat sqlAnglePat_mem (by simp [sqlAnglePat]) rfl

/-- A request fixture: localhost client, a test agent, plain path. -/
def mkReq (path : String) (g p : List (String × List String)) : HttpRequest :=
  { path := path, getParams := g, postParams := p,
    remoteAddr := some "127.0.0.1", userAgent := some "test-agent",
    fullPath := path, secure := false }

/-- A request whose query string carries a threat under name `q` while the
body carries a harmless value under the same name. -/
def reqSharedName : HttpRequest :=
  mkReq "/records/" [("q", ["'"])] [("q", ["ok"])]

/-- GET request with the bare word `password`. -/
def reqPassword : HttpRequest :=
  mkReq "/records/" [("comment", ["password"])] []

/-- GET request with `password'`. -/
def reqPasswordQuote : HttpRequest :=
  mkReq "/records/" [("comment", ["password'"])] []

/-- GET request with `password=`. -/
def reqPasswordEq : HttpRequest :=
  mkReq "/records/" [("comment", ["password="])] []

/-- The end-to-end scenario request: `search="; DROP TABLE records; --`. -/
def reqSearchInjection : HttpRequest :=
  { path := "/"
    getParams := [("search", ["\"; DROP TABLE records; --"])]
    postParams := []
    remoteAddr := some "127.0.0.1"
    userAgent := some "test-agent"
    fullPath := "/?search=%22%3B%20DROP%20TABLE%20records%3B%20--"
    secure := false }

/-! ## The claims -/

/-- C1, counterexample: the claim says no query-string value escapes
inspection when a body parameter shares its name; but on a request whose
query string carries the threat `'` under the name `q` while the body
carries the harmless `ok` under the same name, `process_request` allows
the request (the POST `dict.update` overwrote the GET entry), so a
threatening query value was never inspected. -/
theorem C1_counterexample :
    ("q", ["'"]) ∈ reqSharedName.getParams ∧
    checkForAttacks "'" = true ∧
    processRequest false reqSharedName = (Decision.allow, []) :=
  ⟨by decide, by decide, by decide⟩

/-- C1, amended: with the filter enabled and the path not excluded, the
Request Filter returns Allow iff no value of the **merged** parameter map
is classified as a threat, where body parameters replace query-string
parameters of the same name (so a query-string value does escape
inspection when a body parameter shares its name). -/
theorem C1_amended (req : HttpRequest) (h : isExcludedPath req.path = false) :
    (processRequest false req).1 = Decision.allow ↔
      ∀ nv ∈ mergeParams req.getParams req.postParams, ∀ v ∈ nv.2,
        checkForAttacks v = false := by
  have hpr : processRequest false req =
      inspectParams req (mergeParams req.getParams req.postParams) := by
    rw [processRequest]
    simp [h]
  rw [hpr]
  exact inspectParams_allow_iff req _

/-- C1, witness: the amended theorem applied to the shared-name request. -/
theorem C1_witness : (processRequest false reqSharedName).1 = Decision.allow :=
  (C1_amended reqSharedName (by decide)).mpr (by decide)

/-- A candidate record violating both hierarchy rules:
`subcategory.category = 10 ≠ 11 = category.id` and
`category.type = 20 ≠ 21 = type.id`. -/
def recBothViolated : RecordCandidate :=
  ⟨some ⟨1, 10⟩, some ⟨11, 20⟩, some ⟨21⟩, 100⟩

/-- C2, counterexample: on a candidate violating both rules, validation
reports only the first raised error, not the collected list of both
violations the claim describes. -/
theorem C2_counterexample :
    (∃ sub cat, recBothViolated.subcategory = some sub ∧
        recBothViolated.category = some cat ∧ sub.categoryId ≠ cat.id) ∧
    (∃ cat ty, recBothViolated.category = some cat ∧
        recBothViolated.type = some ty ∧ cat.typeId ≠ ty.id) ∧
    cleanErrors recBothViolated = [msgSubcatNotInCat] ∧
    specCollectedViolations recBothViolated =
      [msgSubcatNotInCat, msgCatNotOfType] ∧
    cleanErrors recBothViolated ≠ specCollectedViolations recBothViolated :=
  ⟨⟨⟨1, 10⟩, ⟨11, 20⟩, rfl, rfl, by decide⟩,
   ⟨⟨11, 20⟩, ⟨21⟩, rfl, rfl, by decide⟩,
   by decide, by decide, by decide⟩

/-- C2, amended: when a candidate violates several rules, both `clean`
methods raise only the first violated rule in check order — the
subcategory–category rule before the category–type rule — so the submitter
sees exactly one error. -/
theorem C2_amended (sub : SubcategoryE) (cat : CategoryE) (ty : TypeE)
    (a : Int) :
    (sub.categoryId ≠ cat.id →
      modelClean ⟨some sub, some cat, some ty, a⟩ = some msgSubcatNotInCat ∧
      cleanErrors ⟨some sub, some cat, some ty, a⟩ = [msgSubcatNotInCat]) ∧
    (sub.categoryId = cat.id → cat.typeId ≠ ty.id →
      modelClean ⟨some sub, some cat, some ty, a⟩ = some msgCatNotOfType ∧
      cleanErrors ⟨some sub, some cat, some ty, a⟩ = [msgCatNotOfType]) := by
  constructor
  · intro h
    exact ⟨by simp [modelClean, h], by simp [cleanErrors, formClean, h]⟩
  · intro h1 h2
    exact ⟨by simp [modelClean, h1, h2],
           by simp [cleanErrors, formClean, h1, h2]⟩

/-- C2, witness: the amended theorem applied to the doubly-violating
candidate. -/
theorem C2_witness :
    modelClean recBothViolated = some msgSubcatNotInCat ∧
    cleanErrors recBothViolated = [msgSubcatNotInCat] :=
  (C2_amended ⟨1, 10⟩ ⟨11, 20⟩ ⟨21⟩ 100).1 (by decide)

/-- C3: with subcategory, category and type all present, both validators
accept exactly when `subcategory.category = category` and
`category.type = type`; any structural inconsistency is reported. -/
theorem C3_hierarchy (sub : SubcategoryE) (cat : CategoryE) (ty : TypeE)
    (a : Int) :
    (modelClean ⟨some sub, some cat, some ty, a⟩ = none ↔
      sub.categoryId = cat.id ∧ cat.typeId = ty.id) ∧
    (formClean ⟨some sub, some cat, some ty, a⟩ = none ↔
      sub.categoryId = cat.id ∧ cat.typeId = ty.id) := by
  constructor <;>
  · by_cases h1 : sub.categoryId = cat.id <;>
      by_cases h2 : cat.typeId = ty.id <;>
      simp [modelClean, formClean, h1, h2]

/-- C3, witness: a consistent record passes `CashFlowRecord.clean`. -/
theorem C3_witness :
    modelClean ⟨some ⟨1, 10⟩, some ⟨10, 20⟩, some ⟨20⟩, 5⟩ = none :=
  (C3_hierarchy ⟨1, 10⟩ ⟨10, 20⟩ ⟨20⟩ 5).1.mpr ⟨rfl, rfl⟩

/-- C4: the bare word `password` is not flagged and its request is allowed,
while `password'` and `password=` are flagged and their requests rejected;
moreover the auth-bypass group fires only when a credential keyword occurs
followed (after optional whitespace, per the patterns' `\s*`) by a quote or
a comparison operator. -/
theorem C4_auth_probe :
    checkForAttacks "password" = false ∧
    checkForAttacks "password'" = true ∧
    checkForAttacks "password=" = true ∧
    processRequest false reqPassword = (Decision.allow, []) ∧
    (processRequest false reqPasswordQuote).1 =
      Decision.reject 403 forbiddenBody ∧
    (processRequest false reqPasswordEq).1 =
      Decision.reject 403 forbiddenBody ∧
    ∀ v : String, authThreat v = true →
      ∃ kw ∈ credentialKeywords, ∃ pre mid c rest,
        pyLowerStr v = pre ++ kw.data ++ mid ++ c :: rest ∧
        (∀ x ∈ mid, isSpaceChar x = true) ∧
        (isQuoteChar c = true ∨ isCmpChar c = true) :=
  ⟨by decide, by decide, by decide, by decide, by decide, by decide,
   fun _ h => authThreat_sound h⟩

/-- C4, witness: the soundness half applied to `password=`. -/
theorem C4_witness :
    ∃ kw ∈ credentialKeywords, ∃ pre mid c rest,
      pyLowerStr "password=" = pre ++ kw.data ++ mid ++ c :: rest ∧
      (∀ x ∈ mid, isSpaceChar x = true) ∧
      (isQuoteChar c = true ∨ isCmpChar c = true) :=
  C4_auth_probe.2.2.2.2.2.2 "password=" (by decide)

/-- C5, counterexample: the claim says an amount of exactly `0.01` is
accepted, but the validator's float limit `0.01` exceeds `1/100`, so
`Decimal('0.01') < 0.01` holds in the source and `0.01` is rejected. -/
theorem C5_counterexample : amountValid 1 = false := by decide

/-- C5, amended: `0.00` is rejected and so is `0.01` — the smallest
two-decimal amount the validator accepts is `0.02`, because the float
limit slightly exceeds `1/100` — and any amount that passes validation is
strictly positive. -/
theorem C5_amount :
    amountValid 0 = false ∧ amountValid 1 = false ∧ amountValid 2 = true ∧
    ∀ c : Int, amountValid c = true → 0 < c := by
  refine ⟨by decide, by decide, by decide, fun c h => ?_⟩
  simp only [amountValid, Bool.and_eq_true, Bool.not_eq_true',
    decide_eq_false_iff_not, decide_eq_true_eq, not_lt] at h
  omega

/-- C5, witness: positivity applied to the smallest accepted amount
`0.02`. -/
theorem C5_witness : (0 : Int) < 2 := C5_amount.2.2.2 2 (by decide)

/-- C6: an allowed request emits no audit record; a rejected request gets
status 403 with the fixed denial body and exactly one warning-severity
audit record carrying the client address, user agent, full path, offending
parameter name and at most the first 100 characters of the offending
value. -/
theorem C6_audit (flag : Bool) (req : HttpRequest) :
    ((processRequest flag req).1 = Decision.allow →
      (processRequest flag req).2 = []) ∧
    (∀ st body, (processRequest flag req).1 = Decision.reject st body →
      st = 403 ∧ body = forbiddenBody ∧
      ∃ n vs v, (n, vs) ∈ mergeParams req.getParams req.postParams ∧
        v ∈ vs ∧ checkForAttacks v = true ∧
        (processRequest flag req).2 =
          [{ severity := "warning"
             ip := req.remoteAddr.getD "Unknown"
             userAgent := req.userAgent.getD "Unknown"
             url := req.fullPath
             paramName := n
             valuePrefix := pySlice100 v }]) := by
  cases flag with
  | true =>
    refine ⟨fun _ => rfl, fun st body h => ?_⟩
    simp [processRequest] at h
  | false =>
    by_cases hex : isExcludedPath req.path = true
    · refine ⟨fun _ => by simp [processRequest, hex], fun st body h => ?_⟩
      simp [processRequest, hex] at h
    · have hex' : isExcludedPath req.path = false := by
        simpa using hex
      have hpr : processRequest false req =
          inspectParams req (mergeParams req.getParams req.postParams) := by
        rw [processRequest]
        simp [hex']
      rw [hpr]
      rcases inspectParams_cases req (mergeParams req.getParams req.postParams)
        with hcase | ⟨n, vs, v, hmem, hv, hchk, hcase⟩
      · rw [hcase]
        refine ⟨fun _ => rfl, fun st body h => ?_⟩
        simp at h
      · rw [hcase]
        refine ⟨fun h => by simp at h, fun st body h => ?_⟩
        simp only [Decision.reject.injEq] at h
        obtain ⟨h1, h2⟩ := h
        exact ⟨h1.symm, h2.symm, n, vs, v, hmem, hv, hchk, rfl⟩

/-- C6, witness: the end-to-end scenario — the injected `search` parameter
is rejected with 403 and exactly one audit record naming `search`. -/
theorem C6_witness :
    403 = 403 ∧ forbiddenBody = forbiddenBody ∧
    ∃ n vs v,
      (n, vs) ∈ mergeParams reqSearchInjection.getParams
          reqSearchInjection.postParams ∧
      v ∈ vs ∧ checkForAttacks v = true ∧
      (processRequest false reqSearchInjection).2 =
        [{ severity := "warning"
           ip := reqSearchInjection.remoteAddr.getD "Unknown"
           userAgent := reqSearchInjection.userAgent.getD "Unknown"
           url := reqSearchInjection.fullPath
           paramName := n
           valuePrefix := pySlice100 v }] :=
  (C6_audit false reqSearchInjection).2 403 forbiddenBody (by decide)

/-- C7: the Russian free-text value is not flagged, and `_check_for_attacks`
reports no threat exactly when none of the three pattern groups matches. -/
theorem C7_no_false_positive :
    checkForAttacks "Затраты на VPS сервер" = false ∧
    ∀ v : String, checkForAttacks v = false ↔
      (sqlThreat v = false ∧ xssThreat v = false ∧ authThreat v = false) := by
  refine ⟨by decide, fun v => ?_⟩
  by_cases hv : v = ""
  · subst hv
    simp only [checkForAttacks, if_pos rfl]
    exact ⟨fun _ => ⟨by decide, by decide, by decide⟩, fun _ => rfl⟩
  · rw [checkForAttacks, if_neg hv]
    simp [and_assoc]

/-- C7, witness: the group characterization applied to a harmless value. -/
theorem C7_witness : checkForAttacks "ok" = false :=
  (C7_no_false_positive.2 "ok").mpr ⟨by decide, by decide, by decide⟩

/-- C8: every response leaves `process_response` with the five fixed
security headers set, and with `Strict-Transport-Security` set exactly for
secure requests (an insecure request leaves that header untouched). -/
theorem C8_headers (secure : Bool) (resp : List (String × String)) :
    getHeader (processResponse secure resp) "X-Content-Type-Options" =
      some "nosniff" ∧
    getHeader (processResponse secure resp) "X-Frame-Options" =
      some "DENY" ∧
    getHeader (processResponse secure resp) "X-XSS-Protection" =
      some "1; mode=block" ∧
    getHeader (processResponse secure resp) "Referrer-Policy" =
      some "strict-origin-when-cross-origin" ∧
    getHeader (processResponse secure resp) "Permissions-Policy" =
      some "geolocation=(), microphone=(), camera=()" ∧
    (secure = true →
      getHeader (processResponse secure resp) "Strict-Transport-Security" =
        some "max-age=31536000; includeSubDomains") ∧
    (secure = false →
      getHeader (processResponse secure resp) "Strict-Transport-Security" =
        getHeader resp "Strict-Transport-Security") := by
  cases secure <;>
    refine ⟨?_, ?_, ?_, ?_, ?_, ?_, ?_⟩ <;>
    simp [processResponse, getHeader_setHeader]

/-- C8, witness: the conditional clauses at concrete security levels. -/
theorem C8_witness :
    getHeader (processResponse true []) "Strict-Transport-Security" =
      some "max-age=31536000; includeSubDomains" ∧
    getHeader (processResponse false []) "Strict-Transport-Security" =
      getHeader [] "Strict-Transport-Security" :=
  ⟨(C8_headers true []).2.2.2.2.2.1 rfl, (C8_headers false []).2.2.2.2.2.2 rfl⟩

/-- C9: any value containing a quote, double quote, semicolon, comment
marker, angle bracket or angle-bracket entity anywhere is flagged,
regardless of surrounding text; the empty value is never flagged, and a
request all of whose parameter values are empty is allowed. -/
theorem C9_delimiters :
    (∀ (s : String) (sub : List Char), sub ∈ delimiterSubstrings →
      sub <:+: s.data → checkForAttacks s = true) ∧
    checkForAttacks "" = false ∧
    (∀ (flag : Bool) (req : HttpRequest),
      (∀ nv ∈ mergeParams req.getParams req.postParams, ∀ v ∈ nv.2, v = "") →
      (processRequest flag req).1 = Decision.allow) := by
  refine ⟨fun s sub hsub hinf => checkForAttacks_of_delim hsub hinf,
    by decide, ?_⟩
  intro flag req h
  cases flag with
  | true => simp [processRequest]
  | false =>
    by_cases hex : isExcludedPath req.path = true
    · simp [processRequest, hex]
    · have hex' : isExcludedPath req.path = false := by
        simpa using hex
      have hpr : processRequest false req =
          inspectParams req (mergeParams req.getParams req.postParams) := by
        rw [processRequest]
        simp [hex']
      rw [hpr, inspectParams_allow_iff]
      intro nv hnv v hv
      rw [h nv hnv v hv]
      decide

/-- C9, witness: a name with an apostrophe is blocked. -/
theorem C9_witness : checkForAttacks "O'Brien" = true :=
  C9_delimiters.1 "O'Brien" ['\''] (by decide) (by decide)

/-- C10: both lookup endpoints answer 200 with a name-ordered `{id, name}`
list for every parent id; an unknown parent id yields the empty list, not
an error. -/
theorem C10_lookup (catDb : List CategoryRow) (subDb : List SubcategoryRow)
    (tid cid : Nat) :
    (getCategoriesByType catDb tid).1 = 200 ∧
    List.Sorted (fun a b => a ≤ b)
      (((getCategoriesByType catDb tid).2).map Prod.snd) ∧
    ((∀ r ∈ catDb, r.typeId ≠ tid) → (getCategoriesByType catDb tid).2 = []) ∧
    (getSubcategoriesByCategory subDb cid).1 = 200 ∧
    List.Sorted (fun a b => a ≤ b)
      (((getSubcategoriesByCategory subDb cid).2).map Prod.snd) ∧
    ((∀ r ∈ subDb, r.categoryId ≠ cid) →
      (getSubcategoriesByCategory subDb cid).2 = []) := by
  refine ⟨rfl, ?_, ?_, rfl, ?_, ?_⟩
  · have hs := List.sorted_insertionSort catByName
      (catDb.filter (fun c => c.typeId = tid))
    simp only [getCategoriesByType, List.map_map]
    exact List.Pairwise.map _ (fun a b hab => hab) hs
  · intro h
    have hf : catDb.filter (fun c => c.typeId = tid) = [] :=
      List.filter_eq_nil_iff.mpr (fun a ha => by simpa using h a ha)
    simp [getCategoriesByType, hf, List.insertionSort]
  · have hs := List.sorted_insertionSort subByName
      (subDb.filter (fun s => s.categoryId = cid))
    simp only [getSubcategoriesByCategory, List.map_map]
    exact List.Pairwise.map _ (fun a b hab => hab) hs
  · intro h
    have hf : subDb.filter (fun s => s.categoryId = cid) = [] :=
      List.filter_eq_nil_iff.mpr (fun a ha => by simpa using h a ha)
    simp [getSubcategoriesByCategory, hf, List.insertionSort]

/-- C10, witness: unknown parent ids yield empty lists on both
endpoints. -/
theorem C10_witness :
    (getCategoriesByType [⟨1, "a", 5⟩] 99).2 = [] ∧
    (getSubcategoriesByCategory [⟨2, "b", 7⟩] 98).2 = [] :=
  ⟨(C10_lookup [⟨1, "a", 5⟩] [⟨2, "b", 7⟩] 99 98).2.2.1 (by decide),
   (C10_lookup [⟨1, "a", 5⟩] [⟨2, "b", 7⟩] 99 98).2.2.2.2.2 (by decide)⟩

end DdsManager
